import Mathlib

/-!
Verification of the load-tester engine (Go sources, package main).

The development shallowly embeds the load-test engine of the most complete
evolution of the tool (the file defining `runLoadTest`, `worker`, `getURLs`,
`readLines` and `analyzeDurations`) together with the flag-validation logic of
its `main`.  Machine integers (`time.Duration` is an `int64` count of
nanoseconds; elapsed times measured by `time.Since` on the monotonic clock are
nonnegative) are modelled as `Nat`; Go integer division by `1000` in
`Duration.Microseconds` is `Nat` division, which agrees with the truncated
division of Go on nonnegative values.  Go `float64` report values are modelled
as exact rationals `ℚ`; the divisions performed by the code are by the nonzero
constants `1000.0` and by a nonzero list length, so no NaN arises on the paths
modelled here.  The network is abstracted as an oracle assigning each job index
the observable outcome of its single HTTP GET.
-/

set_option autoImplicit false

namespace LoadTester

/-- Embeds the Go struct `Metric` (fields `timeToFirstByte`, `timeToLastByte`
of type `time.Duration` in nanoseconds, and `statusCode int`). -/
structure Metric where
  timeToFirstByte : Nat
  timeToLastByte : Nat
  statusCode : Int
  deriving DecidableEq, Repr

/-- Observable outcome of the single `client.Get(url)` plus body read that a
worker performs for one job: either the request fails before any response
header arrives (`connError`, the `err != nil` branch of `client.Get`), or a
response arrives with the given elapsed times to first and last byte and
status code, with `bodyReadFails` recording whether `io.ReadAll(resp.Body)`
returned a non-nil error. -/
inductive HttpOutcome where
  | connError : HttpOutcome
  | response (ttfb ttlb : Nat) (statusCode : Int) (bodyReadFails : Bool) : HttpOutcome
  deriving DecidableEq, Repr

/-- Embeds the body of the `for url := range jobs` loop of `worker`: a network
error sends `nil` on the results channel, a body-read error also sends `nil`,
and otherwise a `&Metric{ttfb, ttlb, statusCode}` is sent.  `none` models the
`nil` pointer. -/
def workerResult : HttpOutcome → Option Metric
  | HttpOutcome.connError => none
  | HttpOutcome.response ttfb ttlb status bodyReadFails =>
      if bodyReadFails then none
      else some { timeToFirstByte := ttfb, timeToLastByte := ttlb, statusCode := status }

/-- The per-run result stream in job order: job `i` of `n` is executed by some
worker against the environment `env`, producing exactly one `Option Metric`.
Concurrent workers may deliver these in any order; theorems below quantify
over an arbitrary permutation where arrival order matters. -/
def jobResults (env : Nat → HttpOutcome) (n : Nat) : List (Option Metric) :=
  (List.range n).map (fun i => workerResult (env i))

/-- State of the collection loop of `runLoadTest` (lines declaring
`successCount`, `failureCount`, `ttfbDurations`, `ttlbDurations`). -/
structure Tally where
  successCount : Nat
  failureCount : Nat
  ttfbDurations : List Nat
  ttlbDurations : List Nat
  deriving DecidableEq, Repr

/-- The initial tally: two zero counters and two empty slices. -/
def initTally : Tally :=
  { successCount := 0, failureCount := 0, ttfbDurations := [], ttlbDurations := [] }

/-- Embeds one iteration of the `for m := range results` loop of
`runLoadTest`: `nil` increments the failure counter; otherwise both durations
are appended and the status code decides which counter is incremented. -/
def collectStep (t : Tally) (m : Option Metric) : Tally :=
  match m with
  | none => { t with failureCount := t.failureCount + 1 }
  | some m =>
      let t := { t with
        ttfbDurations := t.ttfbDurations ++ [m.timeToFirstByte],
        ttlbDurations := t.ttlbDurations ++ [m.timeToLastByte] }
      if 200 ≤ m.statusCode ∧ m.statusCode < 300 then
        { t with successCount := t.successCount + 1 }
      else
        { t with failureCount := t.failureCount + 1 }

/-- The collection loop of `runLoadTest` run from an arbitrary initial state. -/
def collectFold (t : Tally) (rs : List (Option Metric)) : Tally :=
  rs.foldl collectStep t

/-- The collection loop of `runLoadTest` over a full result stream. -/
def collect (rs : List (Option Metric)) : Tally :=
  collectFold initTally rs

/-- Number of stream elements the loop counts as successes. -/
def countSucc : List (Option Metric) → Nat
  | [] => 0
  | none :: rs => countSucc rs
  | some m :: rs =>
      (if 200 ≤ m.statusCode ∧ m.statusCode < 300 then 1 else 0) + countSucc rs

/-- Number of stream elements the loop counts as failures. -/
def countFail : List (Option Metric) → Nat
  | [] => 0
  | none :: rs => 1 + countFail rs
  | some m :: rs =>
      (if 200 ≤ m.statusCode ∧ m.statusCode < 300 then 0 else 1) + countFail rs

/-- Time-to-first-byte values the loop appends, in stream order. -/
def ttfbList : List (Option Metric) → List Nat
  | [] => []
  | none :: rs => ttfbList rs
  | some m :: rs => m.timeToFirstByte :: ttfbList rs

/-- Time-to-last-byte values the loop appends, in stream order. -/
def ttlbList : List (Option Metric) → List Nat
  | [] => []
  | none :: rs => ttlbList rs
  | some m :: rs => m.timeToLastByte :: ttlbList rs

lemma collectFold_successCount (rs : List (Option Metric)) :
    ∀ t : Tally, (collectFold t rs).successCount = t.successCount + countSucc rs := by
  induction rs with
  | nil => intro t; simp [collectFold, countSucc]
  | cons r rs ih =>
      intro t
      cases r with
      | none =>
          simp only [collectFold, List.foldl_cons] at *
          rw [ih]
          simp [collectStep, countSucc]
      | some m =>
          simp only [collectFold, List.foldl_cons] at *
          rw [ih]
          by_cases h : 200 ≤ m.statusCode ∧ m.statusCode < 300 <;>
            simp [collectStep, countSucc, h] <;> omega

lemma collectFold_failureCount (rs : List (Option Metric)) :
    ∀ t : Tally, (collectFold t rs).failureCount = t.failureCount + countFail rs := by
  induction rs with
  | nil => intro t; simp [collectFold, countFail]
  | cons r rs ih =>
      intro t
      cases r with
      | none =>
          simp only [collectFold, List.foldl_cons] at *
          rw [ih]
          simp [collectStep, countFail]
          omega
      | some m =>
          simp only [collectFold, List.foldl_cons] at *
          rw [ih]
          by_cases h : 200 ≤ m.statusCode ∧ m.statusCode < 300 <;>
            simp [collectStep, countFail, h] <;> omega

lemma collectFold_ttfbDurations (rs : List (Option Metric)) :
    ∀ t : Tally, (collectFold t rs).ttfbDurations = t.ttfbDurations ++ ttfbList rs := by
  induction rs with
  | nil => intro t; simp [collectFold, ttfbList]
  | cons r rs ih =>
      intro t
      cases r with
      | none =>
          simp only [collectFold, List.foldl_cons] at *
          rw [ih]
          simp [collectStep, ttfbList]
      | some m =>
          simp only [collectFold, List.foldl_cons] at *
          rw [ih]
          by_cases h : 200 ≤ m.statusCode ∧ m.statusCode < 300 <;>
            simp [collectStep, ttfbList, h]

lemma collectFold_ttlbDurations (rs : List (Option Metric)) :
    ∀ t : Tally, (collectFold t rs).ttlbDurations = t.ttlbDurations ++ ttlbList rs := by
  induction rs with
  | nil => intro t; simp [collectFold, ttlbList]
  | cons r rs ih =>
      intro t
      cases r with
      | none =>
          simp only [collectFold, List.foldl_cons] at *
          rw [ih]
          simp [collectStep, ttlbList]
      | some m =>
          simp only [collectFold, List.foldl_cons] at *
          rw [ih]
          by_cases h : 200 ≤ m.statusCode ∧ m.statusCode < 300 <;>
            simp [collectStep, ttlbList, h]

lemma countSucc_add_countFail (rs : List (Option Metric)) :
    countSucc rs + countFail rs = rs.length := by
  induction rs with
  | nil => simp [countSucc, countFail]
  | cons r rs ih =>
      cases r with
      | none => simp [countSucc, countFail]; omega
      | some m =>
          by_cases h : 200 ≤ m.statusCode ∧ m.statusCode < 300 <;>
            simp [countSucc, countFail, h] <;> omega

lemma countFail_append (rs1 rs2 : List (Option Metric)) :
    countFail (rs1 ++ rs2) = countFail rs1 + countFail rs2 := by
  induction rs1 with
  | nil => simp [countFail]
  | cons r rs ih =>
      cases r with
      | none => simp [countFail, ih]; omega
      | some m => simp [countFail, ih]; omega

lemma countSucc_append (rs1 rs2 : List (Option Metric)) :
    countSucc (rs1 ++ rs2) = countSucc rs1 + countSucc rs2 := by
  induction rs1 with
  | nil => simp [countSucc]
  | cons r rs ih =>
      cases r with
      | none => simp [countSucc, ih]
      | some m => simp [countSucc, ih]; omega

lemma ttfbList_append (rs1 rs2 : List (Option Metric)) :
    ttfbList (rs1 ++ rs2) = ttfbList rs1 ++ ttfbList rs2 := by
  induction rs1 with
  | nil => simp [ttfbList]
  | cons r rs ih =>
      cases r with
      | none => simp [ttfbList, ih]
      | some m => simp [ttfbList, ih]

lemma ttlbList_append (rs1 rs2 : List (Option Metric)) :
    ttlbList (rs1 ++ rs2) = ttlbList rs1 ++ ttlbList rs2 := by
  induction rs1 with
  | nil => simp [ttlbList]
  | cons r rs ih =>
      cases r with
      | none => simp [ttlbList, ih]
      | some m => simp [ttlbList, ih]

/-- The `if d < minVal` accumulation of `analyzeDurations`, started from
`durations[0]`. -/
def minFold (d : Nat) (ds : List Nat) : Nat :=
  ds.foldl (fun mv x => if x < mv then x else mv) d

/-- The `if d > maxVal` accumulation of `analyzeDurations`, started from
`durations[0]`. -/
def maxFold (d : Nat) (ds : List Nat) : Nat :=
  ds.foldl (fun mv x => if x > mv then x else mv) d

/-- The `totalVal += d` accumulation of `analyzeDurations`. -/
def sumFold (ds : List Nat) : Nat :=
  ds.foldl (fun acc x => acc + x) 0

/-- Embeds `analyzeDurations`: on an empty slice it returns `(0, 0, 0)`;
otherwise it folds min, max and sum over the whole slice starting from
`durations[0]`, truncates each to whole microseconds (`Duration.Microseconds`
is integer division by `1000`), divides by `1000.0` to get milliseconds, and
divides the total by the length for the mean.  The returned triple is
`(minMs, maxMs, meanMs)`. -/
def analyzeDurations : List Nat → ℚ × ℚ × ℚ
  | [] => (0, 0, 0)
  | d :: ds =>
      let minVal := minFold d (d :: ds)
      let maxVal := maxFold d (d :: ds)
      let totalVal := sumFold (d :: ds)
      (((minVal / 1000 : Nat) : ℚ) / 1000,
       ((maxVal / 1000 : Nat) : ℚ) / 1000,
       (((totalVal / 1000 : Nat) : ℚ) / 1000) / (((d :: ds).length : Nat) : ℚ))

lemma minFold_cons (d y : Nat) (t : List Nat) :
    minFold d (y :: t) = minFold (if y < d then y else d) t := rfl

lemma maxFold_cons (d y : Nat) (t : List Nat) :
    maxFold d (y :: t) = maxFold (if y > d then y else d) t := rfl

lemma minFold_le_init (ds : List Nat) : ∀ d : Nat, minFold d ds ≤ d := by
  induction ds with
  | nil => intro d; simp [minFold]
  | cons y t ih =>
      intro d
      have h2 : (if y < d then y else d) ≤ d := by split <;> omega
      exact le_trans (ih (if y < d then y else d)) h2

lemma minFold_le_of_mem (ds : List Nat) :
    ∀ d x : Nat, x ∈ ds → minFold d ds ≤ x := by
  induction ds with
  | nil => intro d x hx; cases hx
  | cons y t ih =>
      intro d x hx
      rcases List.mem_cons.mp hx with h | h
      · subst h
        have h2 : (if x < d then x else d) ≤ x ∨ minFold (if x < d then x else d) t ≤ x := by
          by_cases hlt : x < d
          · left; simp [hlt]
          · left; simp [hlt]; omega
        rcases h2 with h2 | h2
        · exact le_trans (minFold_le_init t (if x < d then x else d)) h2
        · exact h2
      · exact ih (if y < d then y else d) x h

lemma le_maxFold_init (ds : List Nat) : ∀ d : Nat, d ≤ maxFold d ds := by
  induction ds with
  | nil => intro d; simp [maxFold]
  | cons y t ih =>
      intro d
      have h2 : d ≤ (if y > d then y else d) := by split <;> omega
      exact le_trans h2 (ih (if y > d then y else d))

lemma le_maxFold_of_mem (ds : List Nat) :
    ∀ d x : Nat, x ∈ ds → x ≤ maxFold d ds := by
  induction ds with
  | nil => intro d x hx; cases hx
  | cons y t ih =>
      intro d x hx
      rcases List.mem_cons.mp hx with h | h
      · subst h
        have h2 : x ≤ (if x > d then x else d) := by split <;> omega
        exact le_trans h2 (le_maxFold_init t (if x > d then x else d))
      · exact ih (if y > d then y else d) x h

lemma minFold_eq_init_or_mem (ds : List Nat) :
    ∀ d : Nat, minFold d ds = d ∨ minFold d ds ∈ ds := by
  induction ds with
  | nil => intro d; left; rfl
  | cons y t ih =>
      intro d
      rcases ih (if y < d then y else d) with h | h
      · by_cases hlt : y < d
        · right
          rw [minFold_cons, if_pos hlt]
          rw [if_pos hlt] at h
          rw [h]; exact List.mem_cons_self y t
        · left
          rw [minFold_cons, if_neg hlt]
          rw [if_neg hlt] at h
          exact h
      · right
        rw [minFold_cons]
        exact List.mem_cons_of_mem y h

lemma maxFold_eq_init_or_mem (ds : List Nat) :
    ∀ d : Nat, maxFold d ds = d ∨ maxFold d ds ∈ ds := by
  induction ds with
  | nil => intro d; left; rfl
  | cons y t ih =>
      intro d
      rcases ih (if y > d then y else d) with h | h
      · by_cases hlt : y > d
        · right
          rw [maxFold_cons, if_pos hlt]
          rw [if_pos hlt] at h
          rw [h]; exact List.mem_cons_self y t
        · left
          rw [maxFold_cons, if_neg hlt]
          rw [if_neg hlt] at h
          exact h
      · right
        rw [maxFold_cons]
        exact List.mem_cons_of_mem y h

lemma foldl_add_eq (ds : List Nat) : ∀ a : Nat, ds.foldl (fun acc x => acc + x) a = a + ds.sum := by
  induction ds with
  | nil => intro a; simp
  | cons y t ih =>
      intro a
      simp only [List.foldl_cons, List.sum_cons, ih]
      omega

lemma sumFold_eq_sum (ds : List Nat) : sumFold ds = ds.sum := by
  simpa using foldl_add_eq ds 0

lemma length_mul_le_sum (l : List Nat) (m : Nat) (h : ∀ x ∈ l, m ≤ x) :
    l.length * m ≤ l.sum := by
  induction l with
  | nil => simp
  | cons y t ih =>
      have hy : m ≤ y := h y (List.mem_cons_self y t)
      have ht : t.length * m ≤ t.sum := ih (fun x hx => h x (List.mem_cons_of_mem y hx))
      simp only [List.length_cons, List.sum_cons, Nat.succ_mul]
      omega

lemma sum_le_length_mul (l : List Nat) (m : Nat) (h : ∀ x ∈ l, x ≤ m) :
    l.sum ≤ l.length * m := by
  induction l with
  | nil => simp
  | cons y t ih =>
      have hy : y ≤ m := h y (List.mem_cons_self y t)
      have ht : t.sum ≤ t.length * m := ih (fun x hx => h x (List.mem_cons_of_mem y hx))
      simp only [List.length_cons, List.sum_cons, Nat.succ_mul]
      omega

/-- Builds one scanned line from the accumulated characters (held in reverse
order), removing one trailing carriage return as the line splitter of the
bufio package does. -/
def mkLine : List Char → String
  | '\r' :: acc => String.mk acc.reverse
  | acc => String.mk acc.reverse

/-- Character-by-character model of the line scanner used by `readLines`
(bufio.Scanner with its default split function): a token is emitted at every
newline, a final segment without a newline is emitted at end of input, and
input ending exactly at a newline (or empty input) emits no further token.
Blank interior lines become empty-string tokens. -/
def scanLinesAux : List Char → List Char → List String
  | acc, [] => if acc = [] then [] else [mkLine acc]
  | acc, c :: rest =>
      if c = '\n' then mkLine acc :: scanLinesAux [] rest
      else scanLinesAux (c :: acc) rest

/-- The list of lines the scanner produces from a whole file content. -/
def scanLines (s : String) : List String :=
  scanLinesAux [] s.data

/-- Embeds `readLines`: opening the file either fails (the file-system oracle
`fs` returns an error, covering the `os.Open` and scanner error paths) or
yields the whole content, which the scanner splits into lines. -/
def readLines (fs : String → Except String String) (path : String) :
    Except String (List String) :=
  match fs path with
  | Except.error e => Except.error e
  | Except.ok content => Except.ok (scanLines content)

/-- Embeds `getURLs`: a set `-f` flag wins, then a set `-u` flag, then the
first positional argument; with none of the three an error is returned. -/
def getURLs (fs : String → Except String String) (fileFlag urlFlag : String)
    (args : List String) : Except String (List String) :=
  if fileFlag ≠ "" then readLines fs fileFlag
  else if urlFlag ≠ "" then Except.ok [urlFlag]
  else
    match args with
    | a :: _ => Except.ok [a]
    | [] => Except.error "no URL provided. Use -u, -f, or a command-line argument"

/-- Parsed flag values as `main` sees them after flag parsing: `-u`, `-n`,
`-c`, `-f` (defaults are the empty string and 0) and the positional
arguments. -/
structure Flags where
  urlFlag : String
  numReqs : Int
  concurrency : Int
  fileFlag : String
  args : List String
  deriving DecidableEq, Repr

/-- Outcome of the validation prologue of `main`: either a fatal
configuration error (log.Fatal, exit code 1) before any request is issued, or
a run with the resolved URL list, the effective request count and the
effective (clamped) concurrency. -/
inductive Decision where
  | configError : Decision
  | run (urls : List String) (numRequests concurrency : Int) : Decision
  deriving DecidableEq, Repr

/-- Embeds the prologue of `main`: resolve URLs (fatal on error), apply the
bare-URL default (`-n` and `-c` both unset at their zero default while a
positional argument is given means one request with concurrency one), reject
non-positive request counts and concurrency, and clamp the concurrency to the
request count. -/
def mainDecision (fs : String → Except String String) (f : Flags) : Decision :=
  match getURLs fs f.fileFlag f.urlFlag f.args with
  | Except.error _ => Decision.configError
  | Except.ok urls =>
      let isStep1Case := f.numReqs = 0 ∧ f.concurrency = 0 ∧ f.args ≠ []
      let numRequests : Int := if isStep1Case then 1 else f.numReqs
      let concurrency : Int := if isStep1Case then 1 else f.concurrency
      if numRequests ≤ 0 then Decision.configError
      else if concurrency ≤ 0 then Decision.configError
      else
        Decision.run urls numRequests
          (if concurrency > numRequests then numRequests else concurrency)

/-- The response codes printed by `runSequential`, in job order: a request
error prints an error line (modelled `none`), otherwise the status code is
printed.  This path reads no body and keeps no statistics. -/
def seqCodes (env : Nat → HttpOutcome) (n : Nat) : List (Option Int) :=
  (List.range n).map (fun i =>
    match env i with
    | HttpOutcome.connError => none
    | HttpOutcome.response _ _ status _ => some status)

/-- URL visited by `runSequential` for each job: its loop computes
`urls[i%len(urls)]`. -/
def seqUrls (urls : List String) (n : Nat) : List String :=
  (List.range n).map (fun i => urls.getD (i % urls.length) "")

/-- URL fed into the jobs channel by `runLoadTest` for each job: its feed
loop computes `urls[i%len(urls)]`, independently of the worker count. -/
def jobUrls (urls : List String) (n : Nat) : List String :=
  (List.range n).map (fun i => urls.getD (i % urls.length) "")

/-- Number of jobs among `0..n-1` that the feed loop assigns to index `k` of
the URL list. -/
def targetUseCount (urls : List String) (n k : Nat) : Nat :=
  ((List.range n).filter (fun i => i % urls.length == k)).length

/-- The Run Summary printed by `runLoadTest`: success and failure counts and
the (min, max, mean) millisecond triples for total request time (printed from
the time-to-last-byte durations), time to first byte, and time to last byte.
The requests-per-second line divides by the wall-clock run duration, a
quantity outside this functional model. -/
structure RunSummary where
  successCount : Nat
  failureCount : Nat
  totalTimeStats : ℚ × ℚ × ℚ
  ttfbStats : ℚ × ℚ × ℚ
  ttlbStats : ℚ × ℚ × ℚ
  deriving DecidableEq, Repr

/-- The summary `runLoadTest` computes once its result stream is fully
drained. -/
def summarize (rs : List (Option Metric)) : RunSummary :=
  let t := collect rs
  { successCount := t.successCount
    failureCount := t.failureCount
    totalTimeStats := analyzeDurations t.ttlbDurations
    ttfbStats := analyzeDurations t.ttfbDurations
    ttlbStats := analyzeDurations t.ttlbDurations }

/-- What the program prints after validation: `runSequential` prints one
response-code line per request and nothing else, while `runLoadTest` prints a
Run Summary. -/
inductive Report where
  | codes : List (Option Int) → Report
  | summary : RunSummary → Report

/-- Embeds the dispatch in `main` after validation: with at most ten requests
and an effective concurrency of one the sequential path runs, otherwise the
worker pool runs and its fully drained result stream is summarized. -/
def mainReport (env : Nat → HttpOutcome) (urls : List String)
    (numRequests concurrency : Nat) : Report :=
  if numRequests ≤ 10 ∧ concurrency = 1 then
    Report.codes (seqCodes env numRequests)
  else
    Report.summary (summarize (jobResults env numRequests))

lemma ttfbList_eq_nil (rs : List (Option Metric)) (h : ∀ r ∈ rs, r = none) :
    ttfbList rs = [] := by
  induction rs with
  | nil => rfl
  | cons r t ih =>
      have hr := h r (List.mem_cons_self r t)
      subst hr
      exact ih (fun x hx => h x (List.mem_cons_of_mem none hx))

lemma ttlbList_eq_nil (rs : List (Option Metric)) (h : ∀ r ∈ rs, r = none) :
    ttlbList rs = [] := by
  induction rs with
  | nil => rfl
  | cons r t ih =>
      have hr := h r (List.mem_cons_self r t)
      subst hr
      exact ih (fun x hx => h x (List.mem_cons_of_mem none hx))

lemma count_mod_range (L k : Nat) (hL : 0 < L) (hk : k < L) :
    ∀ n : Nat, ((List.range n).filter (fun i => i % L == k)).length
      = n / L + (if k < n % L then 1 else 0) := by
  intro n
  induction n with
  | zero => simp
  | succ n ih =>
      have hmod : n % L < L := Nat.mod_lt n hL
      have hdm : L * (n / L) + n % L = n := Nat.div_add_mod n L
      have hsing : ((List.filter (fun i => i % L == k) [n])).length
          = if n % L = k then 1 else 0 := by
        by_cases h : n % L = k
        · simp [List.filter, h]
        · have hb : (n % L == k) = false := by
            rw [beq_eq_false_iff_ne]; exact h
          simp [List.filter, hb, h]
      rw [List.range_succ, List.filter_append, List.length_append, ih, hsing]
      by_cases hcase : n % L + 1 = L
      · have he : n + 1 = L * (n / L + 1) := by
          rw [Nat.mul_succ]; omega
        have hdiv1 : (n + 1) / L = n / L + 1 := by
          rw [he, Nat.mul_div_cancel_left _ hL]
        have hmod1 : (n + 1) % L = 0 := by
          rw [he, Nat.mul_mod_right]
        rw [hdiv1, hmod1]
        split_ifs <;> omega
      · have hlt : n % L + 1 < L := by omega
        have he : n + 1 = L * (n / L) + (n % L + 1) := by omega
        have hdiv1 : (n + 1) / L = n / L := by
          rw [he, Nat.mul_add_div hL, Nat.div_eq_of_lt hlt]
          omega
        have hmod1 : (n + 1) % L = n % L + 1 := by
          rw [he, Nat.mul_add_mod, Nat.mod_eq_of_lt hlt]
        rw [hdiv1, hmod1]
        split_ifs <;> omega

lemma analyzeDurations_cons (d : Nat) (ds : List Nat) :
    analyzeDurations (d :: ds) =
      (((minFold d (d :: ds) / 1000 : Nat) : ℚ) / 1000,
       ((maxFold d (d :: ds) / 1000 : Nat) : ℚ) / 1000,
       (((sumFold (d :: ds) / 1000 : Nat) : ℚ) / 1000) / (((ds.length + 1 : Nat) : ℚ))) := by
  simp [analyzeDurations]

end LoadTester

/-- C1: for every environment and every valid `n ≥ 1`, `c ≥ 1`, the worker
pool emits exactly one Result per job, so any arrival order of the result
stream has exactly `n` elements, and the tallies collected by `runLoadTest`
satisfy `successCount + failureCount = n`.  The arrival order of results from
`c` concurrent workers is unspecified, hence the quantification over an
arbitrary permutation of the job-order stream; the tallies do not depend on
`c`. -/
theorem LoadTester.runLoadTest_result_conservation
    (env : Nat → LoadTester.HttpOutcome) (n c : Nat) (hn : 1 ≤ n) (hc : 1 ≤ c)
    (arrival : List (Option LoadTester.Metric))
    (hperm : arrival.Perm (LoadTester.jobResults env n)) :
    arrival.length = n ∧
      (LoadTester.collect arrival).successCount
        + (LoadTester.collect arrival).failureCount = n := by
  have hlen : arrival.length = n := by
    rw [hperm.length_eq]
    simp [LoadTester.jobResults]
  refine ⟨hlen, ?_⟩
  rw [LoadTester.collect, LoadTester.collectFold_successCount,
    LoadTester.collectFold_failureCount]
  simp only [LoadTester.initTally]
  have := LoadTester.countSucc_add_countFail arrival
  omega

/-- Witness for C1 at a concrete environment: two jobs, one success and one
network failure, arriving in reversed order. -/
theorem LoadTester.runLoadTest_result_conservation_witness :
    ([some { timeToFirstByte := 3, timeToLastByte := 7, statusCode := 200 }, none] :
        List (Option LoadTester.Metric)).length = 2 ∧
      (LoadTester.collect
          [some { timeToFirstByte := 3, timeToLastByte := 7, statusCode := 200 }, none]).successCount
        + (LoadTester.collect
          [some { timeToFirstByte := 3, timeToLastByte := 7, statusCode := 200 }, none]).failureCount
        = 2 :=
  LoadTester.runLoadTest_result_conservation
    (fun i => if i = 0 then LoadTester.HttpOutcome.connError
      else LoadTester.HttpOutcome.response 3 7 200 false)
    2 1 (by decide) (by decide)
    [some { timeToFirstByte := 3, timeToLastByte := 7, statusCode := 200 }, none]
    (by decide)

/-- C10 (amended): for every non-empty list of durations, the triple
`(minMs, maxMs, meanMs)` returned by `analyzeDurations` satisfies
`min ≤ max` and `min ≤ mean` unconditionally; `mean ≤ max` holds whenever
every duration is a whole number of microseconds (a multiple of 1000 ns), and
all three values are positive whenever every duration is at least one
microsecond.  Because `Duration.Microseconds` truncates to whole microseconds
before the mean is divided by the length, sub-microsecond remainders can push
the reported mean above the reported max and can round positive durations
down to zero, so the unrestricted claim fails (see the counterexample). -/
theorem LoadTester.analyzeDurations_order (d : Nat) (ds : List Nat) :
    (LoadTester.analyzeDurations (d :: ds)).1 ≤ (LoadTester.analyzeDurations (d :: ds)).2.1 ∧
    (LoadTester.analyzeDurations (d :: ds)).1 ≤ (LoadTester.analyzeDurations (d :: ds)).2.2 ∧
    ((∀ x ∈ d :: ds, 1000 ∣ x) →
      (LoadTester.analyzeDurations (d :: ds)).2.2 ≤ (LoadTester.analyzeDurations (d :: ds)).2.1) ∧
    ((∀ x ∈ d :: ds, 1000 ≤ x) →
      0 < (LoadTester.analyzeDurations (d :: ds)).1 ∧
      0 < (LoadTester.analyzeDurations (d :: ds)).2.1 ∧
      0 < (LoadTester.analyzeDurations (d :: ds)).2.2) := by
  classical
  rw [LoadTester.analyzeDurations_cons]
  set M := LoadTester.minFold d (d :: ds) with hM
  set X := LoadTester.maxFold d (d :: ds) with hX
  set S := LoadTester.sumFold (d :: ds) with hS
  set L : Nat := ds.length + 1 with hL
  have hMle : ∀ x ∈ d :: ds, M ≤ x := by
    intro x hx
    rcases List.mem_cons.mp hx with h | h
    · subst h; exact LoadTester.minFold_le_init (x :: ds) x
    · exact LoadTester.minFold_le_of_mem (d :: ds) d x (List.mem_cons_of_mem d h)
  have hXge : ∀ x ∈ d :: ds, x ≤ X := by
    intro x hx
    rcases List.mem_cons.mp hx with h | h
    · subst h; exact LoadTester.le_maxFold_init (x :: ds) x
    · exact LoadTester.le_maxFold_of_mem (d :: ds) d x (List.mem_cons_of_mem d h)
  have hMX : M ≤ X := le_trans (hMle d (List.mem_cons_self d ds)) (hXge d (List.mem_cons_self d ds))
  have hSsum : S = (d :: ds).sum := LoadTester.sumFold_eq_sum (d :: ds)
  have hLlen : L = (d :: ds).length := by simp [hL]
  have hLM : L * M ≤ S := by
    rw [hSsum, hLlen]
    exact LoadTester.length_mul_le_sum (d :: ds) M hMle
  have hSX : S ≤ L * X := by
    rw [hSsum, hLlen]
    exact LoadTester.sum_le_length_mul (d :: ds) X hXge
  have hLpos : 0 < L := by omega
  have hLQ : (0 : ℚ) < ((L : Nat) : ℚ) := by exact_mod_cast hLpos
  constructor
  · -- min ≤ max
    have h1 : (M / 1000 : Nat) ≤ (X / 1000 : Nat) := Nat.div_le_div_right hMX
    have h2 : ((M / 1000 : Nat) : ℚ) ≤ ((X / 1000 : Nat) : ℚ) := by exact_mod_cast h1
    simp only
    linarith
  constructor
  · -- min ≤ mean
    have hkey : L * (M / 1000) ≤ S / 1000 := by
      rw [Nat.le_div_iff_mul_le (by norm_num : (0 : Nat) < 1000)]
      calc L * (M / 1000) * 1000 = L * (M / 1000 * 1000) := by ring
        _ ≤ L * M := Nat.mul_le_mul_left L (Nat.div_mul_le_self M 1000)
        _ ≤ S := hLM
    have hkeyQ : ((L : Nat) : ℚ) * ((M / 1000 : Nat) : ℚ) ≤ ((S / 1000 : Nat) : ℚ) := by
      exact_mod_cast hkey
    simp only
    rw [div_div, div_le_div_iff (by norm_num) (by positivity)]
    nlinarith [hkeyQ, hLQ]
  constructor
  · -- mean ≤ max for whole-microsecond durations
    intro hdvd
    have hdvdS : 1000 ∣ S := by
      rw [hSsum]
      exact List.dvd_sum hdvd
    have hdvdX : 1000 ∣ X := by
      rcases LoadTester.maxFold_eq_init_or_mem (d :: ds) d with h | h
      · rw [← hX] at h
        rw [h]; exact hdvd d (List.mem_cons_self d ds)
      · rw [← hX] at h
        exact hdvd X h
    have hSe : S / 1000 * 1000 = S := Nat.div_mul_cancel hdvdS
    have hXe : X / 1000 * 1000 = X := Nat.div_mul_cancel hdvdX
    have hkey : S / 1000 ≤ L * (X / 1000) := by
      have h1 : S / 1000 * 1000 ≤ L * (X / 1000) * 1000 := by
        calc S / 1000 * 1000 = S := hSe
          _ ≤ L * X := hSX
          _ = L * (X / 1000 * 1000) := by rw [hXe]
          _ = L * (X / 1000) * 1000 := by ring
      exact Nat.le_of_mul_le_mul_right h1 (by norm_num)
    have hkeyQ : ((S / 1000 : Nat) : ℚ) ≤ ((L : Nat) : ℚ) * ((X / 1000 : Nat) : ℚ) := by
      exact_mod_cast hkey
    simp only
    rw [div_div, div_le_div_iff (by positivity) (by norm_num)]
    nlinarith [hkeyQ, hLQ]
  · -- positivity for durations of at least one microsecond
    intro hge
    have hMge : 1000 ≤ M := by
      rcases LoadTester.minFold_eq_init_or_mem (d :: ds) d with h | h
      · rw [← hM] at h
        rw [h]; exact hge d (List.mem_cons_self d ds)
      · rw [← hM] at h
        exact hge M h
    have hXge1000 : 1000 ≤ X := le_trans hMge hMX
    have hSge : L * 1000 ≤ S := by
      rw [hSsum, hLlen]
      exact LoadTester.length_mul_le_sum (d :: ds) 1000 hge
    have hm0 : 1 ≤ M / 1000 := by
      rw [Nat.le_div_iff_mul_le (by norm_num : (0 : Nat) < 1000)]; omega
    have hx0 : 1 ≤ X / 1000 := by
      rw [Nat.le_div_iff_mul_le (by norm_num : (0 : Nat) < 1000)]; omega
    have hs0 : L ≤ S / 1000 := by
      rw [Nat.le_div_iff_mul_le (by norm_num : (0 : Nat) < 1000)]; omega
    have hm0Q : (0 : ℚ) < ((M / 1000 : Nat) : ℚ) := by exact_mod_cast hm0
    have hx0Q : (0 : ℚ) < ((X / 1000 : Nat) : ℚ) := by exact_mod_cast hx0
    have hs0Q : (0 : ℚ) < ((S / 1000 : Nat) : ℚ) := by
      have : 0 < S / 1000 := lt_of_lt_of_le hLpos hs0
      exact_mod_cast this
    refine ⟨by positivity, by positivity, by positivity⟩

/-- Witness for the C10 theorem at the concrete list `[1000, 3000]`
(durations of one and three whole microseconds). -/
theorem LoadTester.analyzeDurations_order_witness :
    (LoadTester.analyzeDurations [1000, 3000]).2.2 ≤ (LoadTester.analyzeDurations [1000, 3000]).2.1 ∧
    0 < (LoadTester.analyzeDurations [1000, 3000]).1 :=
  ⟨(LoadTester.analyzeDurations_order 1000 [3000]).2.2.1 (by decide),
   ((LoadTester.analyzeDurations_order 1000 [3000]).2.2.2 (by decide)).1⟩

/-- Counterexample to C10 as stated: for the durations `[1500 ns, 1500 ns]`
the reported mean (0.0015 ms) strictly exceeds the reported max (0.001 ms),
and for the positive duration `[500 ns]` the reported min is 0, not positive,
because `Duration.Microseconds` truncates to whole microseconds. -/
theorem LoadTester.analyzeDurations_order_counterexample :
    (LoadTester.analyzeDurations [1500, 1500]).2.1
        < (LoadTester.analyzeDurations [1500, 1500]).2.2 ∧
    ¬ (0 < (LoadTester.analyzeDurations [500]).1) := by
  constructor
  · show (1 : ℚ) / 1000 < ((3 : ℚ) / 1000) / 2
    norm_num
  · show ¬ ((0 : ℚ) < (0 : ℚ) / 1000)
    norm_num

/-- C2: a Result whose status code lies outside the interval from 200
inclusive to 300 exclusive is counted as a failure (and not as a success) by
the collection loop of `runLoadTest`, yet both of its durations are appended
to the slices from which the min/max/mean timing aggregates are computed,
wherever the Result occurs in the arrival stream. -/
theorem LoadTester.collect_non2xx_failure_but_timed
    (rs1 rs2 : List (Option LoadTester.Metric)) (m : LoadTester.Metric)
    (h : m.statusCode < 200 ∨ 300 ≤ m.statusCode) :
    (LoadTester.collect (rs1 ++ some m :: rs2)).failureCount
        = (LoadTester.collect (rs1 ++ rs2)).failureCount + 1 ∧
    (LoadTester.collect (rs1 ++ some m :: rs2)).successCount
        = (LoadTester.collect (rs1 ++ rs2)).successCount ∧
    m.timeToFirstByte ∈ (LoadTester.collect (rs1 ++ some m :: rs2)).ttfbDurations ∧
    m.timeToLastByte ∈ (LoadTester.collect (rs1 ++ some m :: rs2)).ttlbDurations := by
  have hns : ¬ (200 ≤ m.statusCode ∧ m.statusCode < 300) := by omega
  refine ⟨?_, ?_, ?_, ?_⟩
  · rw [LoadTester.collect, LoadTester.collect, LoadTester.collectFold_failureCount,
      LoadTester.collectFold_failureCount, LoadTester.countFail_append,
      LoadTester.countFail_append]
    simp [LoadTester.countFail, hns]
    omega
  · rw [LoadTester.collect, LoadTester.collect, LoadTester.collectFold_successCount,
      LoadTester.collectFold_successCount, LoadTester.countSucc_append,
      LoadTester.countSucc_append]
    simp [LoadTester.countSucc, hns]
  · rw [LoadTester.collect, LoadTester.collectFold_ttfbDurations,
      LoadTester.ttfbList_append]
    simp [LoadTester.ttfbList, LoadTester.initTally]
  · rw [LoadTester.collect, LoadTester.collectFold_ttlbDurations,
      LoadTester.ttlbList_append]
    simp [LoadTester.ttlbList, LoadTester.initTally]

/-- Witness for C2 at a concrete 404 Result. -/
theorem LoadTester.collect_non2xx_failure_but_timed_witness :
    (LoadTester.collect ([] ++ some { timeToFirstByte := 5, timeToLastByte := 9, statusCode := 404 } :: [])).failureCount
        = (LoadTester.collect ([] ++ [])).failureCount + 1 ∧
    (LoadTester.collect ([] ++ some { timeToFirstByte := 5, timeToLastByte := 9, statusCode := 404 } :: [])).successCount
        = (LoadTester.collect ([] ++ [])).successCount ∧
    (5 : Nat) ∈ (LoadTester.collect ([] ++ some { timeToFirstByte := 5, timeToLastByte := 9, statusCode := 404 } :: [])).ttfbDurations ∧
    (9 : Nat) ∈ (LoadTester.collect ([] ++ some { timeToFirstByte := 5, timeToLastByte := 9, statusCode := 404 } :: [])).ttlbDurations :=
  LoadTester.collect_non2xx_failure_but_timed [] []
    { timeToFirstByte := 5, timeToLastByte := 9, statusCode := 404 }
    (Or.inr (by norm_num))

/-- C3: a request whose body read fails after headers were received makes the
worker send `nil`, so wherever it occurs in the arrival stream the collection
loop records it as a failure and the duration slices feeding the timing
aggregates are exactly those of the stream without it: neither its
time-to-first-byte nor its time-to-last-byte enters the aggregates. -/
theorem LoadTester.worker_bodyReadError_excluded
    (rs1 rs2 : List (Option LoadTester.Metric)) (ttfb ttlb : Nat) (status : Int) :
    LoadTester.workerResult (LoadTester.HttpOutcome.response ttfb ttlb status true) = none ∧
    (LoadTester.collect (rs1 ++ LoadTester.workerResult (LoadTester.HttpOutcome.response ttfb ttlb status true) :: rs2)).failureCount
        = (LoadTester.collect (rs1 ++ rs2)).failureCount + 1 ∧
    (LoadTester.collect (rs1 ++ LoadTester.workerResult (LoadTester.HttpOutcome.response ttfb ttlb status true) :: rs2)).ttfbDurations
        = (LoadTester.collect (rs1 ++ rs2)).ttfbDurations ∧
    (LoadTester.collect (rs1 ++ LoadTester.workerResult (LoadTester.HttpOutcome.response ttfb ttlb status true) :: rs2)).ttlbDurations
        = (LoadTester.collect (rs1 ++ rs2)).ttlbDurations := by
  refine ⟨rfl, ?_, ?_, ?_⟩
  · rw [LoadTester.collect, LoadTester.collect, LoadTester.collectFold_failureCount,
      LoadTester.collectFold_failureCount, LoadTester.countFail_append,
      LoadTester.countFail_append]
    simp [LoadTester.workerResult, LoadTester.countFail]
    omega
  · rw [LoadTester.collect, LoadTester.collect, LoadTester.collectFold_ttfbDurations,
      LoadTester.collectFold_ttfbDurations, LoadTester.ttfbList_append,
      LoadTester.ttfbList_append]
    simp [LoadTester.workerResult, LoadTester.ttfbList]
  · rw [LoadTester.collect, LoadTester.collect, LoadTester.collectFold_ttlbDurations,
      LoadTester.collectFold_ttlbDurations, LoadTester.ttlbList_append,
      LoadTester.ttlbList_append]
    simp [LoadTester.workerResult, LoadTester.ttlbList]

/-- C9: when every Result of the stream is a failure without timing data, the
duration slices are empty and all nine statistics (min, max and mean of total
request time, time to first byte and time to last byte) report zero; the
empty-slice guard of `analyzeDurations` returns before any division is
performed, so no division by zero occurs. -/
theorem LoadTester.allFailures_zero_stats (rs : List (Option LoadTester.Metric))
    (h : ∀ r ∈ rs, r = none) :
    (LoadTester.collect rs).ttfbDurations = [] ∧
    (LoadTester.collect rs).ttlbDurations = [] ∧
    (LoadTester.summarize rs).totalTimeStats = (0, 0, 0) ∧
    (LoadTester.summarize rs).ttfbStats = (0, 0, 0) ∧
    (LoadTester.summarize rs).ttlbStats = (0, 0, 0) := by
  have hf : (LoadTester.collect rs).ttfbDurations = [] := by
    rw [LoadTester.collect, LoadTester.collectFold_ttfbDurations,
      LoadTester.ttfbList_eq_nil rs h]
    simp [LoadTester.initTally]
  have hl : (LoadTester.collect rs).ttlbDurations = [] := by
    rw [LoadTester.collect, LoadTester.collectFold_ttlbDurations,
      LoadTester.ttlbList_eq_nil rs h]
    simp [LoadTester.initTally]
  refine ⟨hf, hl, ?_, ?_, ?_⟩
  · show LoadTester.analyzeDurations (LoadTester.collect rs).ttlbDurations = (0, 0, 0)
    rw [hl]; rfl
  · show LoadTester.analyzeDurations (LoadTester.collect rs).ttfbDurations = (0, 0, 0)
    rw [hf]; rfl
  · show LoadTester.analyzeDurations (LoadTester.collect rs).ttlbDurations = (0, 0, 0)
    rw [hl]; rfl

/-- Witness for C9 on a stream of two network failures. -/
theorem LoadTester.allFailures_zero_stats_witness :
    (LoadTester.collect [none, none]).ttfbDurations = [] ∧
    (LoadTester.collect [none, none]).ttlbDurations = [] ∧
    (LoadTester.summarize [none, none]).totalTimeStats = (0, 0, 0) ∧
    (LoadTester.summarize [none, none]).ttfbStats = (0, 0, 0) ∧
    (LoadTester.summarize [none, none]).ttlbStats = (0, 0, 0) :=
  LoadTester.allFailures_zero_stats [none, none] (by decide)

/-- C8: with a non-empty URL list of length L, job i of the feed loop of
`runLoadTest` is assigned `urls[i mod L]` (in increasing i order, and with no
dependence on the worker count, which the feed loop never reads), and over a
full run each target index k < L is used either n / L or n / L + 1 times. -/
theorem LoadTester.roundRobin_assignment (urls : List String) (n : Nat)
    (hL : 0 < urls.length) :
    (∀ i, i < n →
      (LoadTester.jobUrls urls n).getD i "" = urls.getD (i % urls.length) "") ∧
    (∀ k, k < urls.length →
      LoadTester.targetUseCount urls n k = n / urls.length ∨
      LoadTester.targetUseCount urls n k = n / urls.length + 1) := by
  constructor
  · intro i hi
    rw [LoadTester.jobUrls, List.getD_eq_getElem?_getD, List.getElem?_map,
      List.getElem?_range hi]
    rfl
  · intro k hk
    have hcount := LoadTester.count_mod_range urls.length k hL hk n
    rw [LoadTester.targetUseCount, hcount]
    by_cases hlt : k < n % urls.length
    · right; rw [if_pos hlt]
    · left; rw [if_neg hlt]; omega

/-- Witness for C8 with two targets and five jobs: job 4 gets target 0, and
target 0 is used 5 / 2 + 1 = 3 times. -/
theorem LoadTester.roundRobin_assignment_witness :
    (LoadTester.jobUrls ["a", "b"] 5).getD 4 "" = ["a", "b"].getD (4 % ["a", "b"].length) "" ∧
    (LoadTester.targetUseCount ["a", "b"] 5 0 = 5 / ["a", "b"].length ∨
      LoadTester.targetUseCount ["a", "b"] 5 0 = 5 / ["a", "b"].length + 1) :=
  ⟨(LoadTester.roundRobin_assignment ["a", "b"] 5 (by decide)).1 4 (by decide),
   (LoadTester.roundRobin_assignment ["a", "b"] 5 (by decide)).2 0 (by decide)⟩

/-- C6: target resolution in `getURLs` obeys strict first-match-wins
precedence: a set file flag makes the target list the file lines in order
(the scanner strips the line terminator and keeps blank lines as empty
targets); otherwise a set URL flag yields that single URL; otherwise a
present positional argument yields a single-element list holding the first
argument; and with none of the three sources the resolution returns an error
and `main` aborts with a configuration error before any request. -/
theorem LoadTester.getURLs_precedence (fs : String → Except String String)
    (fileFlag urlFlag : String) (args : List String) :
    (fileFlag ≠ "" →
      LoadTester.getURLs fs fileFlag urlFlag args = LoadTester.readLines fs fileFlag) ∧
    (fileFlag ≠ "" → ∀ content, fs fileFlag = Except.ok content →
      LoadTester.getURLs fs fileFlag urlFlag args
        = Except.ok (LoadTester.scanLines content)) ∧
    (fileFlag = "" → urlFlag ≠ "" →
      LoadTester.getURLs fs fileFlag urlFlag args = Except.ok [urlFlag]) ∧
    (fileFlag = "" → urlFlag = "" → ∀ a rest, args = a :: rest →
      LoadTester.getURLs fs fileFlag urlFlag args = Except.ok [a]) ∧
    (fileFlag = "" → urlFlag = "" → args = [] →
      (∃ msg, LoadTester.getURLs fs fileFlag urlFlag args = Except.error msg) ∧
      ∀ nr c : Int,
        LoadTester.mainDecision fs
          { urlFlag := urlFlag, numReqs := nr, concurrency := c,
            fileFlag := fileFlag, args := args }
          = LoadTester.Decision.configError) := by
  refine ⟨?_, ?_, ?_, ?_, ?_⟩
  · intro hf
    rw [LoadTester.getURLs.eq_def, if_pos hf]
  · intro hf content hc
    rw [LoadTester.getURLs.eq_def, if_pos hf, LoadTester.readLines.eq_def, hc]
  · intro hf hu
    rw [LoadTester.getURLs.eq_def, if_neg (by simp [hf]), if_pos hu]
  · intro hf hu a rest ha
    subst ha
    rw [LoadTester.getURLs.eq_def, if_neg (by simp [hf]), if_neg (by simp [hu])]
  · intro hf hu ha
    subst ha
    constructor
    · exact ⟨_, by rw [LoadTester.getURLs.eq_def, if_neg (by simp [hf]), if_neg (by simp [hu])]⟩
    · intro nr c
      subst hf
      subst hu
      rfl

/-- Witness for C6: each precedence branch checked at a concrete input; the
file lines preserve order and keep the blank line as an empty target. -/
theorem LoadTester.getURLs_precedence_witness :
    LoadTester.getURLs
        (fun p => if p = "urls.txt" then Except.ok "a\n\nb\n" else Except.error "open failed")
        "urls.txt" "u" ["arg"]
      = Except.ok (LoadTester.scanLines "a\n\nb\n") ∧
    LoadTester.scanLines "a\n\nb\n" = ["a", "", "b"] ∧
    LoadTester.getURLs (fun _ => Except.error "e") "" "u" ["arg"] = Except.ok ["u"] ∧
    LoadTester.getURLs (fun _ => Except.error "e") "" "" ["arg"] = Except.ok ["arg"] ∧
    (∃ msg, LoadTester.getURLs (fun _ => Except.error "e") "" "" [] = Except.error msg) := by
  refine ⟨?_, ?_, ?_, ?_, ?_⟩
  · exact (LoadTester.getURLs_precedence
      (fun p => if p = "urls.txt" then Except.ok "a\n\nb\n" else Except.error "open failed")
      "urls.txt" "u" ["arg"]).2.1 (by decide) "a\n\nb\n" (by rfl)
  · decide
  · exact (LoadTester.getURLs_precedence (fun _ => Except.error "e") "" "u" ["arg"]).2.2.1
      rfl (by decide)
  · exact (LoadTester.getURLs_precedence (fun _ => Except.error "e") "" "" ["arg"]).2.2.2.1
      rfl rfl "arg" [] rfl
  · exact ((LoadTester.getURLs_precedence (fun _ => Except.error "e") "" "" []).2.2.2.2
      rfl rfl rfl).1

/-- C7 fails on the code: when the `-f` flag names an existing but empty
file, `readLines` scans zero lines and `getURLs` returns a nil error together
with an empty target list, so resolution succeeds with an empty Target List.
The validation prologue then accepts the configuration and starts a run over
the empty list, whose first job would evaluate `urls[i%len(urls)]` with
`len(urls) == 0` and panic with a division by zero: the code cannot maintain
the non-emptiness invariant the claim states. -/
theorem LoadTester.getURLs_emptyFile_succeeds_empty :
    LoadTester.getURLs
        (fun p => if p = "urls.txt" then Except.ok "" else Except.error "open failed")
        "urls.txt" "" []
      = Except.ok ([] : List String) ∧
    LoadTester.mainDecision
        (fun p => if p = "urls.txt" then Except.ok "" else Except.error "open failed")
        { urlFlag := "", numReqs := 5, concurrency := 2, fileFlag := "urls.txt", args := [] }
      = LoadTester.Decision.run [] 5 2 := by
  constructor
  · rfl
  · rfl

/-- C5 (amended): with `-n 0` (equal to the unset default of the flag) the
process exits with the configuration-error exit code before any request,
unless `-c` is also at its zero default while a positional argument is
present, in which case the bare-URL default turns the run into one request
with concurrency one instead of aborting. -/
theorem LoadTester.nZero_configError (fs : String → Except String String)
    (f : LoadTester.Flags) (h0 : f.numReqs = 0)
    (h1 : ¬ (f.concurrency = 0 ∧ f.args ≠ [])) :
    LoadTester.mainDecision fs f = LoadTester.Decision.configError := by
  cases hg : LoadTester.getURLs fs f.fileFlag f.urlFlag f.args with
  | error e =>
      simp [LoadTester.mainDecision, hg]
  | ok urls =>
      simp [LoadTester.mainDecision, hg, h0, h1]

/-- Witness for the amended C5: `-n 0` with `-c 3` and an explicit URL is
rejected as a configuration error. -/
theorem LoadTester.nZero_configError_witness :
    LoadTester.mainDecision (fun _ => Except.error "e")
        { urlFlag := "http://x", numReqs := 0, concurrency := 3, fileFlag := "", args := [] }
      = LoadTester.Decision.configError :=
  LoadTester.nZero_configError (fun _ => Except.error "e")
    { urlFlag := "http://x", numReqs := 0, concurrency := 3, fileFlag := "", args := [] }
    rfl (by simp)

/-- Counterexample to C5 as stated: with `-n 0`, `-c` unset and a bare
positional URL, the bare-URL default of `main` fires and the process runs one
request with concurrency one instead of exiting with the configuration-error
exit code, so the exit does not happen for every combination of the other
arguments. -/
theorem LoadTester.nZero_runs_counterexample :
    LoadTester.mainDecision (fun _ => Except.error "no such file")
        { urlFlag := "", numReqs := 0, concurrency := 0, fileFlag := "",
          args := ["http://example.com"] }
      = LoadTester.Decision.run ["http://example.com"] 1 1 ∧
    LoadTester.mainDecision (fun _ => Except.error "no such file")
        { urlFlag := "", numReqs := 0, concurrency := 0, fileFlag := "",
          args := ["http://example.com"] }
      ≠ LoadTester.Decision.configError := by
  constructor
  · rfl
  · intro h
    exact LoadTester.Decision.noConfusion (h.symm.trans (by rfl))

/-- C4 (amended): when the effective concurrency is one and the request count
is at most ten, `main` dispatches to the strictly sequential path, which
visits the same cyclic URL assignment as the worker-pool feed loop would, but
prints one response code per request and produces no Run Summary at all: its
report is never the summary the worker-pool path produces, so the sequential
mode does not produce identical statistics.  (With concurrency one and more
than ten requests the worker-pool path itself runs.) -/
theorem LoadTester.sequential_mode_report (env : Nat → LoadTester.HttpOutcome)
    (urls : List String) (n c : Nat) (h1 : n ≤ 10) (h2 : c = 1) :
    LoadTester.mainReport env urls n c = LoadTester.Report.codes (LoadTester.seqCodes env n) ∧
    LoadTester.seqUrls urls n = LoadTester.jobUrls urls n ∧
    ∀ s : LoadTester.RunSummary,
      LoadTester.mainReport env urls n c ≠ LoadTester.Report.summary s := by
  have hcond : n ≤ 10 ∧ c = 1 := ⟨h1, h2⟩
  refine ⟨?_, rfl, ?_⟩
  · rw [LoadTester.mainReport, if_pos hcond]
  · intro s h
    rw [LoadTester.mainReport, if_pos hcond] at h
    exact LoadTester.Report.noConfusion h

/-- Witness for the amended C4 at one request, concurrency one, against a
host answering 200. -/
theorem LoadTester.sequential_mode_report_witness :
    LoadTester.mainReport (fun _ => LoadTester.HttpOutcome.response 5 9 200 false) ["u"] 1 1
        = LoadTester.Report.codes
            (LoadTester.seqCodes (fun _ => LoadTester.HttpOutcome.response 5 9 200 false) 1) ∧
    LoadTester.seqUrls ["u"] 1 = LoadTester.jobUrls ["u"] 1 ∧
    ∀ s : LoadTester.RunSummary,
      LoadTester.mainReport (fun _ => LoadTester.HttpOutcome.response 5 9 200 false) ["u"] 1 1
        ≠ LoadTester.Report.summary s :=
  LoadTester.sequential_mode_report (fun _ => LoadTester.HttpOutcome.response 5 9 200 false)
    ["u"] 1 1 (by norm_num) rfl

/-- Counterexample to C4 as stated: at one request and concurrency one
against a host answering 200, the sequential mode emits the per-request code
report, which differs from the Run Summary the worker-pool path produces for
the same inputs — the sequential mode does not produce the same Run
Summary (it produces none). -/
theorem LoadTester.sequential_mode_counterexample :
    LoadTester.mainReport (fun _ => LoadTester.HttpOutcome.response 5 9 200 false) ["u"] 1 1
      ≠ LoadTester.Report.summary
          (LoadTester.summarize
            (LoadTester.jobResults (fun _ => LoadTester.HttpOutcome.response 5 9 200 false) 1)) := by
  intro h
  rw [LoadTester.mainReport, if_pos (⟨by norm_num, rfl⟩ : (1 : Nat) ≤ 10 ∧ (1 : Nat) = 1)] at h
  exact LoadTester.Report.noConfusion h
